import Mathlib

/-!
Verification development for the scrapxd repository: a shallow embedding of its
pagination-aware aggregation code (src/scrapxd/parser/user.py, src/scrapxd/models/user.py)
and its lazy film-resolution code (src/scrapxd/models/entry.py, entry_list.py, user_list.py,
film.py), together with theorems settling the specification's claims about them.

Markup parsing (BeautifulSoup selectors) and the HTTP transport are external collaborators
per the spec; pages are therefore abstracted by the values those selectors extract, and the
network by a function from locator to page content plus an explicit log of round trips.
-/

/-- Calendar date as produced by datetime.date(y, m, d) in the parsers. -/
structure PyDate where
  year : ℕ
  month : ℕ
  day : ℕ
  deriving DecidableEq, Repr

/-- Abstraction of a parsed film page (the BeautifulSoup of a film URL): the fields that the
markup-parsing helpers of src/scrapxd/parser/film.py (parse_slug, parse_title, parse_year)
extract from it. Markup parsing itself is an external collaborator per the spec. -/
structure FilmSoup where
  slug : String
  title : String
  year : ℕ
  deriving DecidableEq, Repr

/-- Hydrated payload of a fully parsed film, as passed to the Film constructor by
parse_film in src/scrapxd/parser/film.py (restricted to the fields this development tracks). -/
structure FilmDetails where
  title : String
  year : ℕ
  deriving DecidableEq, Repr

/-- Embeds models/film.py Film: a pydantic model declared with just a slug. `details` holds
the hydrated field values carried by a fully parsed Film and is none for a bare
Film(slug=s) placeholder; `_soup` embeds the private per-instance page cache behind
Film._get_soup. -/
structure Film where
  slug : String
  details : Option FilmDetails := none
  _soup : Option FilmSoup := none
  deriving DecidableEq, Repr

/-- Session-level log of film-page network round trips, in order: one slug is appended per
fetch_film call, since Fetcher._fetch_page in src/scrapxd/fetcher.py performs an
unconditional session.get on every call. -/
structure Sess where
  fetched : List String := []
  deriving DecidableEq, Repr

/-- Modelled from the spec: the module-level fetch_film imported by models/entry.py and
models/user_list.py is missing from src (src/scrapxd/fetcher.py declares only the Fetcher
class). Per the spec's Fetcher contract and Fetcher.fetch_film / Fetcher._fetch_page in src,
each call performs exactly one network round trip and returns the film's parsed page, with
no caching at this layer. `world` gives the page content per slug (entities are immutable
for the process run, per the spec's non-goals). -/
def fetch_film (world : String → FilmSoup) (slug : String) (s : Sess) : FilmSoup × Sess :=
  (world slug, { fetched := s.fetched ++ [slug] })

/-- Embeds parser/film.py parse_film, restricted to the tracked fields: it reads each field
off the page and returns a fully populated Film instance (whose private _soup cache starts
empty, as for any fresh pydantic instance). -/
def parse_film (soup : FilmSoup) : Film :=
  { slug := soup.slug, details := some { title := soup.title, year := soup.year }, _soup := none }

/-- Embeds the Film | str union used by Entry.film and UserList.films: an entity reference
is either a hydrated Film object (Resolved) or a bare slug string (Unresolved). -/
inductive FilmOrStr where
  | film : Film → FilmOrStr
  | str : String → FilmOrStr
  deriving DecidableEq, Repr

/-- Embeds models/entry.py Entry: a film reference plus optional context attributes, each
defaulting to None. -/
structure Entry where
  film : FilmOrStr
  watched_date : Option PyDate := none
  rating : Option ℚ := none
  review : Option String := none
  deriving DecidableEq, Repr

/-- Embeds models/entry.py Entry.get_film_details: when self.film is a bare slug string it
fetches the film page, parses it, and stores the Film on the entry; otherwise it returns the
stored Film with no I/O. Explicit state passing stands in for the in-place mutation of
self.film. -/
def Entry.get_film_details (world : String → FilmSoup) (e : Entry) (s : Sess) :
    (Film × Entry) × Sess :=
  match e.film with
  | FilmOrStr.str slug =>
      let fs := fetch_film world slug s
      let film := parse_film fs.1
      ((film, { e with film := FilmOrStr.film film }), fs.2)
  | FilmOrStr.film f => ((f, e), s)

/-- Embeds models/film.py Film._get_soup: fetches the main film page on first call and
caches it on the private _soup attribute, so the page is downloaded at most once per
Film instance. -/
def Film._get_soup (world : String → FilmSoup) (f : Film) (s : Sess) :
    (FilmSoup × Film) × Sess :=
  match f._soup with
  | none =>
      let fs := fetch_film world f.slug s
      ((fs.1, { f with _soup := some fs.1 }), fs.2)
  | some cached => ((cached, f), s)

/-- Embeds the List[Film | str] | Dict[int, Film | str] union of UserList.films; the dict
(insertion-ordered in Python) is embedded as an association list. -/
inductive FilmsField where
  | list : List FilmOrStr → FilmsField
  | dict : List (ℕ × FilmOrStr) → FilmsField
  deriving DecidableEq, Repr

/-- Embeds models/user_list.py UserList. -/
structure UserList where
  username : String
  title : String
  number_of_films : ℕ
  films : FilmsField
  deriving DecidableEq, Repr

/-- Embeds models/entry_list.py EntryList. Its declared pydantic fields are exactly
username, title, number_of_entries and entries; there is no films field. -/
structure EntryList where
  username : String
  title : String
  number_of_entries : ℕ
  entries : List Entry
  deriving DecidableEq, Repr

/-- Python exceptions surfacing in the embedded operations. -/
inductive PyError where
  | attributeError : PyError
  | keyError : PyError
  deriving DecidableEq, Repr

/-- Modelled from the spec: src lacks scrapxd/config.py; BASE_URL is the scraped site's base
address, used only to prefix review URLs. -/
def BASE_URL : String := "https://letterboxd.com/"

/-- Embeds ceil(count / size), computed in the source with math.ceil over float division
(exact at the magnitudes of page counts). -/
def ceil_div (count size : ℕ) : ℕ := (count + size - 1) / size

/-- Embeds range(2, page_count + 1), the index sequence of every aggregation's page loop. -/
def page_range (page_count : ℕ) : List ℕ := List.range' 2 (page_count - 1)

/-- The pages an aggregation fetches after page 1: every aggregation in the source guards
its loop with count > page_size and then iterates page over range(2, ceil(count/size) + 1). -/
def pages_to_fetch (page_size count : ℕ) : List ℕ :=
  if count > page_size then page_range (ceil_div count page_size) else []

/-- Embeds parser/user.py parse_watchlist. Inputs abstract the first-page soup by what the
selectors extract from it: `film_count` is the parsed js-watchlist-count value and `slugs1`
the _parse_slugs result for page 1; `fetchParse p` is fetch_watchlist for page p composed
with _parse_slugs (which returns None when the page has no film posters, and a nonempty
list otherwise; the loop's `if slugs:` check skips both None and empty). The second
component records the pages the loop fetched, in order. -/
def parse_watchlist (username : String) (film_count : ℕ) (slugs1 : List String)
    (fetchParse : ℕ → Option (List String)) : UserList × List ℕ :=
  let pages := pages_to_fetch 28 film_count
  let watchlist_slugs := pages.foldl (fun acc page =>
    match fetchParse page with
    | some slugs => if slugs = [] then acc else acc ++ slugs
    | none => acc) slugs1
  ({ username := username,
     title := username ++ "\x27s Watchlist",
     number_of_films := film_count,
     films := FilmsField.list (watchlist_slugs.map FilmOrStr.str) }, pages)

/-- One poster item of a logs page, abstracted by what models/user.py
_parse_slugs_with_rating extracts: the film slug and the numeral N of the rated-N rating
class (the markup always carries such a span on these pages). -/
structure PosterItem where
  slug : String
  rating_code : ℕ
  deriving DecidableEq, Repr

/-- Embeds models/user.py User._parse_slugs_with_rating: maps each poster item to the pair
of its slug and int(raw_rating[6:]) / 2, and an empty page to an empty list. -/
def _parse_slugs_with_rating (items : List PosterItem) : List (String × ℚ) :=
  items.map (fun item => (item.slug, (item.rating_code : ℚ) / 2))

/-- Embeds models/user.py User._parse_logs. `log_count` is the count _parse_count extracts
from the first page, `soup1` the first page's poster items, and `fetchPage p` the poster
items of page p as fetched through self._get_soup. The second component records the pages
the loop fetched, in order. -/
def User._parse_logs (username : String) (log_count : ℕ) (soup1 : List PosterItem)
    (fetchPage : ℕ → List PosterItem) : EntryList × List ℕ :=
  let user_logs := _parse_slugs_with_rating soup1
  let pages := pages_to_fetch 72 log_count
  let user_logs := pages.foldl (fun acc i => acc ++ _parse_slugs_with_rating (fetchPage i)) user_logs
  ({ username := username,
     title := username ++ "\x27s films",
     number_of_entries := log_count,
     entries := user_logs.map (fun i => { film := FilmOrStr.film { slug := i.1 }, rating := some i.2 }) },
   pages)

/-- One diary row, abstracted by what models/user.py User._parse_diary_page extracts: the
date from the diary link, the film slug, the rated-N numeral, and the review href when the
review icon is present. -/
structure DiaryRow where
  slug : String
  entry_date : PyDate
  rating_code : ℕ
  review_href : Option String
  deriving DecidableEq, Repr

/-- Embeds models/user.py User._parse_diary_page: every row yields an Entry with the parsed
date, the film slug as a bare string, rating int(raw_rating[6:]) / 2, and, when the review
icon is present, BASE_URL prefixed to the href with its leading character dropped. -/
def User._parse_diary_page (rows : List DiaryRow) : List Entry :=
  rows.map (fun row =>
    { film := FilmOrStr.str row.slug,
      watched_date := some row.entry_date,
      rating := some ((row.rating_code : ℚ) / 2),
      review := row.review_href.map (fun href => BASE_URL ++ href.drop 1) })

/-- One review article, abstracted by what models/user.py User._parse_review_page extracts:
the datetime attribute, the film slug, the rated-N numeral, and either a full-text URL
(when the collapsed-text div is present) or the inline paragraph text. -/
structure ReviewItem where
  slug : String
  review_date : PyDate
  rating_code : ℕ
  full_text_url : Option String
  paragraph : String
  deriving DecidableEq, Repr

/-- Embeds models/user.py User._parse_review_page. `fetchText u` is the joined paragraph
text of the full-text page fetched through self._get_soup for URL u. Every article yields an
Entry holding a Film object, the parsed date, rating int(raw_rating[6:]) / 2, and the review
text from whichever branch applies. -/
def User._parse_review_page (fetchText : String → String) (items : List ReviewItem) :
    List Entry :=
  items.map (fun item =>
    let text := match item.full_text_url with
      | some u => fetchText (u.drop 1)
      | none => item.paragraph
    { film := FilmOrStr.film { slug := item.slug },
      watched_date := some item.review_date,
      rating := some ((item.rating_code : ℚ) / 2),
      review := some text })

/-- Embeds Python's enumerate(films, start=1) as consumed by the dict comprehension
building a numbered list's rank map. -/
def enumerate_from : ℕ → List α → List (ℕ × α)
  | _, [] => []
  | i, x :: xs => (i, x) :: enumerate_from (i + 1) xs

/-- Embeds models/user.py User._parse_film_list. `total_films` is the film count parsed from
the first page's description meta tag, `slugs1` the first page's _parse_slugs result, and
`fetchParse p` the _parse_slugs result of page p (the model-level _parse_slugs returns [] on
an empty page and the loop extends unconditionally). `is_numbered` abstracts the
numbered-list-item check run on the soup in scope after the loop. Collected slugs are
wrapped as Film(slug=slug) objects and, for a numbered list, keyed by enumerate(_, start=1).
The second component records the pages the loop fetched, in order. -/
def User._parse_film_list (username : String) (title : String) (total_films : ℕ)
    (slugs1 : List String) (fetchParse : ℕ → List String) (is_numbered : Bool) :
    UserList × List ℕ :=
  let pages := pages_to_fetch 100 total_films
  let films := pages.foldl (fun acc page => acc ++ fetchParse page) slugs1
  let film_objs := films.map (fun slug => FilmOrStr.film { slug := slug })
  ({ username := username,
     title := title,
     number_of_films := total_films,
     films := if is_numbered then FilmsField.dict (enumerate_from 1 film_objs)
              else FilmsField.list film_objs }, pages)

/-- Embeds parser/user.py parse_user_lists. `has_list_set` abstracts the list-set section
check, `parsed_count` the _parse_count(soup, "Lists") result for the first page,
`page1_lists` the _parse_list_page result of the first page, and `fetchPage p` the
_parse_list_page result of lists page p. Line for line with the source, the parsed count is
overwritten by the literal 13 before the page loop runs. The second component records the
pages the loop fetched, in order. -/
def parse_user_lists (has_list_set : Bool) (parsed_count : ℕ)
    (page1_lists : List UserList) (fetchPage : ℕ → List UserList) :
    Option (List UserList) × List ℕ :=
  if !has_list_set then (none, [])
  else
    let list_count := parsed_count
    let list_count := 13
    let pages := pages_to_fetch 12 list_count
    let user_lists := pages.foldl (fun acc i => acc ++ fetchPage i) page1_lists
    (some user_lists, pages)

/-- Embeds list.index(slug) on a List[Film | str]: the first position whose element equals
the slug string. A Film object never equals a str (pydantic BaseModel equality returns
NotImplemented against a non-model, and str's reflected comparison likewise, so == is
False), hence only bare string entries can match. -/
def list_index_of_slug : List FilmOrStr → String → Option ℕ
  | [], _ => none
  | FilmOrStr.str s :: xs, slug =>
      if s = slug then some 0 else (list_index_of_slug xs slug).map (· + 1)
  | FilmOrStr.film _ :: xs, slug => (list_index_of_slug xs slug).map (· + 1)

/-- Embeds the dict branch's scan of UserList.get_film: the first key whose value equals the
slug string, under the same Film-never-equals-str rule. -/
def dict_first_key_of_slug : List (ℕ × FilmOrStr) → String → Option ℕ
  | [], _ => none
  | (k, FilmOrStr.str s) :: rest, slug =>
      if s = slug then some k else dict_first_key_of_slug rest slug
  | (_, FilmOrStr.film _) :: rest, slug => dict_first_key_of_slug rest slug

/-- Embeds Python dict lookup self.films[i] on the association list (keys are unique in a
dict, and lookup finds the entry for i). -/
def dict_get (pairs : List (ℕ × FilmOrStr)) (k : ℕ) : Option FilmOrStr :=
  (pairs.find? (fun p => p.1 = k)).map Prod.snd

/-- Embeds Python dict assignment self.films[i] = film for a key already present: the value
at that key is replaced, and insertion order is unchanged. -/
def dict_set (pairs : List (ℕ × FilmOrStr)) (k : ℕ) (v : FilmOrStr) : List (ℕ × FilmOrStr) :=
  pairs.map (fun p => if p.1 = k then (k, v) else p)

/-- Embeds models/user_list.py UserList.get_film: on a list, films.index(slug) then fetch,
parse, store at that index and return the Film, with the ValueError of a failed index
caught and turned into None; on a dict, scan insertion order for a value equal to the slug
and do the same at its key; None when nothing matched. -/
def UserList.get_film (world : String → FilmSoup) (ul : UserList) (slug : String) (s : Sess) :
    (Option Film × UserList) × Sess :=
  match ul.films with
  | FilmsField.list films =>
    match list_index_of_slug films slug with
    | some idx =>
        let fs := fetch_film world slug s
        let film := parse_film fs.1
        ((some film, { ul with films := FilmsField.list (films.set idx (FilmOrStr.film film)) }),
         fs.2)
    | none => ((none, ul), s)
  | FilmsField.dict pairs =>
    match dict_first_key_of_slug pairs slug with
    | some k =>
        let fs := fetch_film world slug s
        let film := parse_film fs.1
        ((some film, { ul with films := FilmsField.dict (dict_set pairs k (FilmOrStr.film film)) }),
         fs.2)
    | none => ((none, ul), s)

/-- One iteration of UserList.get_films' list loop at index i: a Film entry is skipped
(continue), a bare slug is fetched, parsed and stored at i. The out-of-range case cannot
arise for the ranges the loop uses. -/
def resolve_list_index (world : String → FilmSoup) (films : List FilmOrStr) (i : ℕ)
    (s : Sess) : List FilmOrStr × Sess :=
  match films[i]? with
  | some (FilmOrStr.film _) => (films, s)
  | some (FilmOrStr.str slug) =>
      let fs := fetch_film world slug s
      (films.set i (FilmOrStr.film (parse_film fs.1)), fs.2)
  | none => (films, s)

/-- One iteration of UserList.get_films' dict loop at key i: self.films[i] raises KeyError
when the key is absent; a Film value is skipped (continue), a bare slug is fetched, parsed
and stored at key i. -/
def resolve_dict_key (world : String → FilmSoup) (pairs : List (ℕ × FilmOrStr)) (i : ℕ)
    (s : Sess) : Except PyError (List (ℕ × FilmOrStr) × Sess) :=
  match dict_get pairs i with
  | none => Except.error PyError.keyError
  | some (FilmOrStr.film _) => Except.ok (pairs, s)
  | some (FilmOrStr.str slug) =>
      let fs := fetch_film world slug s
      Except.ok (dict_set pairs i (FilmOrStr.film (parse_film fs.1)), fs.2)

/-- Folding step of UserList.get_films' dict loop: a KeyError raised by an earlier
iteration propagates (the Python loop has stopped), otherwise the key is resolved. -/
def dict_films_step (world : String → FilmSoup)
    (acc : Except PyError (List (ℕ × FilmOrStr) × Sess)) (i : ℕ) :
    Except PyError (List (ℕ × FilmOrStr) × Sess) :=
  match acc with
  | Except.error e => Except.error e
  | Except.ok st => resolve_dict_key world st.1 i st.2

/-- Embeds models/user_list.py UserList.get_films: limit defaults to len(self.films); the
list branch iterates i over range(min(limit, len(self.films))) resolving unresolved
positions in place, the dict branch iterates i over range(1, min(limit, len(self.films)) + 1)
doing the same per key; self.films is returned. -/
def UserList.get_films (world : String → FilmSoup) (ul : UserList) (limit : Option ℕ)
    (s : Sess) : Except PyError ((FilmsField × UserList) × Sess) :=
  match ul.films with
  | FilmsField.list films =>
      let lim := limit.getD films.length
      let out := (List.range (min lim films.length)).foldl
        (fun acc i => resolve_list_index world acc.1 i acc.2) (films, s)
      Except.ok ((FilmsField.list out.1, { ul with films := FilmsField.list out.1 }), out.2)
  | FilmsField.dict pairs =>
      let lim := limit.getD pairs.length
      let out := (List.range' 1 (min lim pairs.length)).foldl
        (dict_films_step world) (Except.ok (pairs, s))
      match out with
      | Except.error e => Except.error e
      | Except.ok st =>
          Except.ok ((FilmsField.dict st.1, { ul with films := FilmsField.dict st.1 }), st.2)

/-- Pydantic attribute access self.films on an EntryList: EntryList declares only username,
title, number_of_entries and entries, so the access raises AttributeError. -/
def EntryList.films_attr (_ : EntryList) : Except PyError (List FilmOrStr) :=
  Except.error PyError.attributeError

/-- One iteration of EntryList.get_films' loop at index i: entry.get_film_details() is
called only when the entry's film is a bare string. -/
def resolve_entry_index (world : String → FilmSoup) (entries : List Entry) (i : ℕ)
    (s : Sess) : List Entry × Sess :=
  match entries[i]? with
  | some e =>
      match e.film with
      | FilmOrStr.str _ =>
          let r := Entry.get_film_details world e s
          (entries.set i r.1.2, r.2)
      | FilmOrStr.film _ => (entries, s)
  | none => (entries, s)

/-- Embeds models/entry_list.py EntryList.get_films: limit defaults to len(self.entries),
then the loop bound evaluates min(limit, len(self.films)) — and self.films does not exist
on EntryList, so the call raises AttributeError before any entry is resolved. The loop body
that would follow is transcribed for completeness. -/
def EntryList.get_films (world : String → FilmSoup) (el : EntryList) (limit : Option ℕ)
    (s : Sess) : Except PyError ((List Entry × EntryList) × Sess) :=
  let lim := limit.getD el.entries.length
  match el.films_attr with
  | Except.error e => Except.error e
  | Except.ok films =>
      let out := (List.range (min lim films.length)).foldl
        (fun acc i => resolve_entry_index world acc.1 i acc.2) (el.entries, s)
      Except.ok ((out.1, { el with entries := out.1 }), out.2)

/-- Embeds the loop of models/entry_list.py EntryList.search_film over the remaining
entries: a bare-string film equal to the slug returns the entry; otherwise the elif
evaluates entry.film.slug, which on a bare string raises AttributeError and on a Film
object compares its slug, returning the entry on a match and continuing otherwise. -/
def search_film_loop : List Entry → String → Except PyError (Option Entry)
  | [], _ => Except.ok none
  | e :: rest, slug =>
    match e.film with
    | FilmOrStr.str s =>
        if s = slug then Except.ok (some e) else Except.error PyError.attributeError
    | FilmOrStr.film f =>
        if f.slug = slug then Except.ok (some e) else search_film_loop rest slug

/-- Embeds models/entry_list.py EntryList.search_film. -/
def EntryList.search_film (el : EntryList) (slug : String) : Except PyError (Option Entry) :=
  search_film_loop el.entries slug

/-! ## Helper lemmas -/

theorem ceil_div_le_one {total S : ℕ} (h1 : 1 ≤ total) (h2 : total ≤ S) :
    ceil_div total S = 1 := by
  have hS : 0 < S := Nat.lt_of_lt_of_le h1 h2
  unfold ceil_div
  have hle : 1 ≤ (total + S - 1) / S := by
    rw [Nat.le_div_iff_mul_le hS]
    omega
  have hlt : (total + S - 1) / S < 2 := by
    rw [Nat.div_lt_iff_lt_mul hS]
    omega
  omega

theorem two_le_ceil_div {total S : ℕ} (hS : 0 < S) (h : S < total) :
    2 ≤ ceil_div total S := by
  unfold ceil_div
  rw [Nat.le_div_iff_mul_le hS]
  omega

theorem one_cons_page_range {c : ℕ} (hc : 1 ≤ c) :
    1 :: page_range c = List.range' 1 c := by
  unfold page_range
  obtain ⟨k, rfl⟩ := Nat.exists_eq_add_of_le hc
  have h1 : 1 + k = k + 1 := Nat.add_comm 1 k
  rw [h1, List.range'_succ]
  simp

theorem enumerate_from_map_fst (i : ℕ) (l : List α) :
    (enumerate_from i l).map Prod.fst = List.range' i l.length := by
  induction l generalizing i with
  | nil => rfl
  | cons x xs ih =>
      rw [List.length_cons, List.range'_succ]
      simp [enumerate_from, ih]

theorem enumerate_from_map_snd (i : ℕ) (l : List α) :
    (enumerate_from i l).map Prod.snd = l := by
  induction l generalizing i with
  | nil => rfl
  | cons x xs ih => simp [enumerate_from, ih]

theorem enumerate_from_length (i : ℕ) (l : List α) :
    (enumerate_from i l).length = l.length := by
  induction l generalizing i with
  | nil => rfl
  | cons x xs ih => simp [enumerate_from, ih]

theorem foldl_append_length (g : ℕ → List α) (l : List ℕ) (init : List α) :
    (l.foldl (fun acc i => acc ++ g i) init).length
      = init.length + (l.map (fun i => (g i).length)).sum := by
  induction l generalizing init with
  | nil => simp
  | cons p ps ih =>
      simp only [List.foldl_cons, List.map_cons, List.sum_cons, ih, List.length_append]
      omega

theorem mem_foldl_append {g : ℕ → List α} {l : List ℕ} {init : List α} {x : α} :
    x ∈ l.foldl (fun acc i => acc ++ g i) init ↔ x ∈ init ∨ ∃ i ∈ l, x ∈ g i := by
  induction l generalizing init with
  | nil => simp
  | cons p ps ih =>
      simp only [List.foldl_cons, ih, List.mem_append, List.mem_cons]
      constructor
      · rintro ((h | h) | ⟨i, hi, hx⟩)
        · exact Or.inl h
        · exact Or.inr ⟨p, Or.inl rfl, h⟩
        · exact Or.inr ⟨i, Or.inr hi, hx⟩
      · rintro (h | ⟨i, (rfl | hi), hx⟩)
        · exact Or.inl (Or.inl h)
        · exact Or.inl (Or.inr hx)
        · exact Or.inr ⟨i, hi, hx⟩

/-! ## Claims -/

/-- C4: for every aggregate kind with page size S, once page 1 reports a declared total, no
further page is fetched when the total is at most S, and otherwise exactly pages
2..ceil(total/S) are fetched; together with page 1 the fetched pages are exactly
1..ceil(total/S), strictly increasing, none skipped, none repeated; the watchlist
(page size 28) and logs (page size 72) aggregations fetch exactly this schedule. -/
theorem aggregation_page_schedule (S total : ℕ) (hS : 0 < S) :
    (total ≤ S → pages_to_fetch S total = []) ∧
    (S < total → pages_to_fetch S total = List.range' 2 (ceil_div total S - 1)) ∧
    (1 ≤ total → 1 :: pages_to_fetch S total = List.range' 1 (ceil_div total S)) ∧
    (1 :: pages_to_fetch S total).Nodup ∧
    (1 :: pages_to_fetch S total).Pairwise (fun a b => a < b) ∧
    (∀ u c s1 fp, (parse_watchlist u c s1 fp).2 = pages_to_fetch 28 c) ∧
    (∀ u c p1 fp, (User._parse_logs u c p1 fp).2 = pages_to_fetch 72 c) := by
  have hempty : total ≤ S → pages_to_fetch S total = [] := by
    intro h
    simp [pages_to_fetch, Nat.not_lt.mpr h]
  have hfull : S < total → pages_to_fetch S total = List.range' 2 (ceil_div total S - 1) := by
    intro h
    simp [pages_to_fetch, h, page_range]
  have hall : 1 ≤ total → 1 :: pages_to_fetch S total = List.range' 1 (ceil_div total S) := by
    intro h1
    by_cases hc : total ≤ S
    · rw [hempty hc, ceil_div_le_one h1 hc]
      rfl
    · have hlt : S < total := Nat.not_le.mp hc
      have h2 : 2 ≤ ceil_div total S := two_le_ceil_div hS hlt
      rw [hfull hlt]
      exact one_cons_page_range (by omega)
  have hrange : ∀ n : ℕ, 1 :: pages_to_fetch S total = List.range' 1 n →
      (1 :: pages_to_fetch S total).Nodup ∧
      (1 :: pages_to_fetch S total).Pairwise (fun a b => a < b) := by
    intro n hn
    rw [hn]
    exact ⟨List.nodup_range' 1 n, List.pairwise_lt_range' 1 n⟩
  have hnp : (1 :: pages_to_fetch S total).Nodup ∧
      (1 :: pages_to_fetch S total).Pairwise (fun a b => a < b) := by
    by_cases h0 : 1 ≤ total
    · exact hrange (ceil_div total S) (hall h0)
    · have : total = 0 := by omega
      subst this
      rw [hempty (Nat.zero_le S)]
      exact ⟨List.nodup_singleton 1, List.pairwise_singleton _ 1⟩
  exact ⟨hempty, hfull, hall, hnp.1, hnp.2, fun u c s1 fp => rfl, fun u c p1 fp => rfl⟩

theorem aggregation_page_schedule_witness :
    (28 < 60 → pages_to_fetch 28 60 = List.range' 2 (ceil_div 60 28 - 1)) ∧
    1 :: pages_to_fetch 28 60 = List.range' 1 (ceil_div 60 28) ∧
    1 :: pages_to_fetch 28 60 = [1, 2, 3] := by
  have h := aggregation_page_schedule 28 60 (by decide)
  exact ⟨h.2.1, h.2.2.1 (by decide), by decide⟩

/-- C1: refuted as stated for the user-lists aggregation: parse_user_lists overwrites the
list count parsed from the first lists page with the literal 13, so its whole result is
independent of the parsed count, and with a parsed count of 5 (which fits on one page of
size 12) it still fetches lists page 2. -/
theorem user_lists_declared_total_hardcoded :
    (∀ (has_list_set : Bool) (c₁ c₂ : ℕ) (p1 : List UserList) (fp : ℕ → List UserList),
      parse_user_lists has_list_set c₁ p1 fp = parse_user_lists has_list_set c₂ p1 fp) ∧
    (∀ (p1 : List UserList) (fp : ℕ → List UserList),
      (parse_user_lists true 5 p1 fp).2 = [2]) := by
  constructor
  · intro has_list_set c₁ c₂ p1 fp
    rfl
  · intro p1 fp
    rfl

/-- C8: a numbered list aggregate built by User._parse_film_list carries a rank map whose
keys are exactly 1..N for its N entries, with no gaps and no duplicates, and whose values
are the collected films in fetch order. -/
theorem numbered_list_ranks (username title : String) (total : ℕ) (slugs1 : List String)
    (fetchParse : ℕ → List String) (pairs : List (ℕ × FilmOrStr))
    (h : (User._parse_film_list username title total slugs1 fetchParse true).1.films =
      FilmsField.dict pairs) :
    pairs.map Prod.fst = List.range' 1 pairs.length ∧
    (pairs.map Prod.fst).Nodup ∧
    pairs.map Prod.snd =
      ((pages_to_fetch 100 total).foldl (fun acc page => acc ++ fetchParse page) slugs1).map
        (fun slug => FilmOrStr.film { slug := slug }) := by
  simp only [User._parse_film_list, if_pos] at h
  have hp : pairs = enumerate_from 1
      (((pages_to_fetch 100 total).foldl (fun acc page => acc ++ fetchParse page) slugs1).map
        (fun slug => FilmOrStr.film { slug := slug })) := by
    cases h
    rfl
  subst hp
  refine ⟨?_, ?_, enumerate_from_map_snd 1 _⟩
  · rw [enumerate_from_map_fst, enumerate_from_length]
  · rw [enumerate_from_map_fst]
    exact List.nodup_range' 1 _

theorem numbered_list_ranks_witness :
    (User._parse_film_list "u" "t" 0 ["a", "b"] (fun _ => []) true).1.films =
      FilmsField.dict [(1, FilmOrStr.film { slug := "a" }), (2, FilmOrStr.film { slug := "b" })] ∧
    ([(1, FilmOrStr.film { slug := "a" }), (2, FilmOrStr.film { slug := "b" })].map
      Prod.fst).Nodup := by
  have h : (User._parse_film_list "u" "t" 0 ["a", "b"] (fun _ => []) true).1.films =
      FilmsField.dict [(1, FilmOrStr.film { slug := "a" }), (2, FilmOrStr.film { slug := "b" })] := by
    rfl
  exact ⟨h, (numbered_list_ranks "u" "t" 0 ["a", "b"] (fun _ => []) _ h).2.1⟩

/-- C2 counterexample: with page size 72, a first logs page declaring 130 logs and carrying
72 items, and page 2 carrying only 53 items, User._parse_logs returns its aggregate with a
declared total of 130 but only 125 entries: no count verification runs and no error of any
kind is reported, refuting the claim that a discrepancy is reported rather than silently
accepted. -/
theorem aggregation_count_mismatch_silent :
    ((User._parse_logs "u" 130 (List.replicate 72 { slug := "a", rating_code := 7 })
        (fun _ => List.replicate 53 { slug := "b", rating_code := 7 })).1.number_of_entries
      = 130) ∧
    ((User._parse_logs "u" 130 (List.replicate 72 { slug := "a", rating_code := 7 })
        (fun _ => List.replicate 53 { slug := "b", rating_code := 7 })).1.entries.length
      = 125) := by
  constructor
  · rfl
  · rfl

/-- C2 amended: no aggregation verifies the collected count against the declared total: the
logs aggregation always returns its record with number_of_entries equal to the count parsed
from page 1 and with exactly the entries collected from the first page plus each fetched
page in order, and the watchlist aggregation always returns its record with number_of_films
equal to the parsed count — whatever the collected length, a mismatch is silently
accepted. -/
theorem aggregation_no_count_check (username : String) (log_count : ℕ)
    (soup1 : List PosterItem) (fetchPage : ℕ → List PosterItem) :
    (User._parse_logs username log_count soup1 fetchPage).1.number_of_entries = log_count ∧
    (User._parse_logs username log_count soup1 fetchPage).1.entries.length
      = soup1.length + ((pages_to_fetch 72 log_count).map
          (fun p => (fetchPage p).length)).sum ∧
    (∀ (u : String) (c : ℕ) (s1 : List String) (fp : ℕ → Option (List String)),
      (parse_watchlist u c s1 fp).1.number_of_films = c) := by
  refine ⟨rfl, ?_, fun u c s1 fp => rfl⟩
  simp only [User._parse_logs, List.length_map]
  rw [foldl_append_length (fun i => _parse_slugs_with_rating (fetchPage i))]
  simp [_parse_slugs_with_rating]

theorem rating_code_half_star {n : ℕ} (h1 : 1 ≤ n) (h2 : n ≤ 10) :
    (∃ k : ℕ, (n : ℚ) / 2 = (k : ℚ) / 2) ∧ 1/2 ≤ (n : ℚ) / 2 ∧ (n : ℚ) / 2 ≤ 5 := by
  have hn1 : (1 : ℚ) ≤ (n : ℚ) := by exact_mod_cast h1
  have hn2 : (n : ℚ) ≤ 10 := by exact_mod_cast h2
  exact ⟨⟨n, rfl⟩, by linarith, by linarith⟩

/-- C9: every Entry produced by the logs, diary and review parsers carries, when present, a
rating equal to a rated-N numeral divided by two — a multiple of 0.5 lying in [0.5, 5.0]
whenever the page's rating classes are the site's rated-1..rated-10 — and context fields
may be absent: every logs entry in fact has no watched date and no review, as the Entry
model legally allows. -/
theorem parsed_ratings_half_star :
    (∀ (username : String) (log_count : ℕ) (soup1 : List PosterItem)
        (fetchPage : ℕ → List PosterItem),
      (∀ it ∈ soup1, 1 ≤ it.rating_code ∧ it.rating_code ≤ 10) →
      (∀ p it, it ∈ fetchPage p → 1 ≤ it.rating_code ∧ it.rating_code ≤ 10) →
      ∀ e ∈ (User._parse_logs username log_count soup1 fetchPage).1.entries,
        (∃ r, e.rating = some r ∧ (∃ k : ℕ, r = (k : ℚ) / 2) ∧ 1/2 ≤ r ∧ r ≤ 5) ∧
        e.watched_date = none ∧ e.review = none) ∧
    (∀ rows : List DiaryRow,
      (∀ row ∈ rows, 1 ≤ row.rating_code ∧ row.rating_code ≤ 10) →
      ∀ e ∈ User._parse_diary_page rows,
        ∃ r, e.rating = some r ∧ (∃ k : ℕ, r = (k : ℚ) / 2) ∧ 1/2 ≤ r ∧ r ≤ 5) ∧
    (∀ (fetchText : String → String) (items : List ReviewItem),
      (∀ it ∈ items, 1 ≤ it.rating_code ∧ it.rating_code ≤ 10) →
      ∀ e ∈ User._parse_review_page fetchText items,
        ∃ r, e.rating = some r ∧ (∃ k : ℕ, r = (k : ℚ) / 2) ∧ 1/2 ≤ r ∧ r ≤ 5) := by
  refine ⟨?_, ?_, ?_⟩
  · intro username log_count soup1 fetchPage h1 h2 e he
    simp only [User._parse_logs, List.mem_map] at he
    obtain ⟨p, hp, rfl⟩ := he
    rw [mem_foldl_append] at hp
    have hcode : ∃ it : PosterItem, (1 ≤ it.rating_code ∧ it.rating_code ≤ 10) ∧
        p = (it.slug, (it.rating_code : ℚ) / 2) := by
      rcases hp with hp | ⟨i, _, hp⟩
      · simp only [_parse_slugs_with_rating, List.mem_map] at hp
        obtain ⟨it, hit, rfl⟩ := hp
        exact ⟨it, h1 it hit, rfl⟩
      · simp only [_parse_slugs_with_rating, List.mem_map] at hp
        obtain ⟨it, hit, rfl⟩ := hp
        exact ⟨it, h2 i it hit, rfl⟩
    obtain ⟨it, ⟨hl, hr⟩, rfl⟩ := hcode
    exact ⟨⟨(it.rating_code : ℚ) / 2, rfl, rating_code_half_star hl hr⟩, rfl, rfl⟩
  · intro rows hb e he
    simp only [User._parse_diary_page, List.mem_map] at he
    obtain ⟨row, hrow, rfl⟩ := he
    obtain ⟨hl, hr⟩ := hb row hrow
    exact ⟨(row.rating_code : ℚ) / 2, rfl, rating_code_half_star hl hr⟩
  · intro fetchText items hb e he
    simp only [User._parse_review_page, List.mem_map] at he
    obtain ⟨item, hitem, rfl⟩ := he
    obtain ⟨hl, hr⟩ := hb item hitem
    exact ⟨(item.rating_code : ℚ) / 2, rfl, rating_code_half_star hl hr⟩

theorem parsed_ratings_half_star_witness :
    (∃ r, (({ film := FilmOrStr.film { slug := "x" }, rating := some ((7 : ℚ) / 2) } : Entry)).rating
        = some r ∧ (∃ k : ℕ, r = (k : ℚ) / 2) ∧ 1/2 ≤ r ∧ r ≤ 5) ∧
    ({ film := FilmOrStr.film { slug := "x" }, rating := some ((7 : ℚ) / 2) } : Entry).watched_date
        = none := by
  have h := (parsed_ratings_half_star).1 "u" 1 [{ slug := "x", rating_code := 7 }]
      (fun _ => [])
      (by intro it hit
          rw [List.mem_singleton] at hit
          subst hit
          exact ⟨by decide, by decide⟩)
      (by intro p it hit
          simp at hit)
      ({ film := FilmOrStr.film { slug := "x" }, rating := some ((7 : ℚ) / 2) } : Entry)
      (by simp [User._parse_logs, _parse_slugs_with_rating, pages_to_fetch])
  exact ⟨h.1, h.2.1⟩

/-- C5: refuted by the code as written: EntryList.get_films computes its loop bound from
self.films, an attribute EntryList does not declare, so every call raises AttributeError
before resolving any entry — its own body resolves self.entries, so the claimed bulk
hydration over the entries is plainly the intent and the attribute name a slip. -/
theorem entry_list_get_films_raises (world : String → FilmSoup) (el : EntryList)
    (limit : Option ℕ) (s : Sess) :
    EntryList.get_films world el limit s = Except.error PyError.attributeError := rfl

theorem list_index_of_slug_eq_none {films : List FilmOrStr} {slug : String} :
    list_index_of_slug films slug = none ↔ FilmOrStr.str slug ∉ films := by
  induction films with
  | nil => simp [list_index_of_slug]
  | cons x xs ih =>
      cases x with
      | str s =>
          by_cases hs : s = slug
          · subst hs
            simp [list_index_of_slug]
          · simp only [list_index_of_slug, if_neg hs, Option.map_eq_none', ih,
              List.mem_cons]
            constructor
            · rintro hnot (heq | hmem)
              · exact hs (FilmOrStr.str.inj heq).symm
              · exact hnot hmem
            · intro hnot hmem
              exact hnot (Or.inr hmem)
      | film f =>
          simp only [list_index_of_slug, Option.map_eq_none', ih, List.mem_cons]
          constructor
          · rintro hnot (heq | hmem)
            · cases heq
            · exact hnot hmem
          · intro hnot hmem
            exact hnot (Or.inr hmem)

/-- C10: for a UserList whose films are stored as a plain list, get_film matches only
unresolved string entries: whenever no bare slug string equal to the identifier is present,
it returns None and changes nothing — even when a hydrated Film with that very slug sits in
the list. -/
theorem get_film_misses_hydrated (world : String → FilmSoup) (ul : UserList) (slug : String)
    (s : Sess) (films : List FilmOrStr) (f : Film)
    (hl : ul.films = FilmsField.list films)
    (hno : FilmOrStr.str slug ∉ films)
    (hf : FilmOrStr.film f ∈ films) (hslug : f.slug = slug) :
    UserList.get_film world ul slug s = ((none, ul), s) := by
  have hidx : list_index_of_slug films slug = none := list_index_of_slug_eq_none.mpr hno
  simp [UserList.get_film, hl, hidx]

theorem get_film_misses_hydrated_witness :
    UserList.get_film (fun _ => { slug := "x", title := "T", year := 2000 })
      { username := "u", title := "t", number_of_films := 1,
        films := FilmsField.list [FilmOrStr.film { slug := "x" }] } "x" { fetched := [] }
      = ((none,
          { username := "u", title := "t", number_of_films := 1,
            films := FilmsField.list [FilmOrStr.film { slug := "x" }] }),
         { fetched := [] }) :=
  get_film_misses_hydrated _ _ _ _ [FilmOrStr.film { slug := "x" }] { slug := "x" } rfl
    (by decide) (by decide) rfl

/-- C6 counterexample: search_film raises AttributeError as soon as it scans an unresolved
entry whose slug differs from the identifier (the elif evaluates .slug on a str), and
get_film returns None although an entry for the identifier is present, once that entry is
hydrated — so the find operations are neither total nor complete as claimed. -/
theorem find_not_total_counterexample :
    EntryList.search_film
      { username := "u", title := "t", number_of_entries := 1,
        entries := [{ film := FilmOrStr.str "a" }] } "b"
      = Except.error PyError.attributeError ∧
    (UserList.get_film (fun _ => { slug := "y", title := "T", year := 2000 })
      { username := "u", title := "t", number_of_films := 1,
        films := FilmsField.list [FilmOrStr.film { slug := "y" }] } "y" { fetched := [] }).1.1
      = none := by
  exact ⟨rfl, rfl⟩

theorem search_loop_all_resolved {entries : List Entry} {slug : String}
    (h : ∀ e ∈ entries, ∃ f, e.film = FilmOrStr.film f) :
    (∃ r, search_film_loop entries slug = Except.ok r) ∧
    (search_film_loop entries slug = Except.ok none ↔
      ∀ e ∈ entries, ∀ f : Film, e.film = FilmOrStr.film f → f.slug ≠ slug) := by
  induction entries with
  | nil => simp [search_film_loop]
  | cons e rest ih =>
      obtain ⟨f, hf⟩ := h e (List.mem_cons_self e rest)
      obtain ⟨⟨r, hr⟩, hiff⟩ := ih (fun x hx => h x (List.mem_cons_of_mem e hx))
      by_cases hs : f.slug = slug
      · have hstep : search_film_loop (e :: rest) slug = Except.ok (some e) := by
          simp [search_film_loop, hf, hs]
        refine ⟨⟨some e, hstep⟩, ?_⟩
        rw [hstep]
        constructor
        · intro hok
          simp at hok
        · intro hall
          exact absurd hs (hall e (List.mem_cons_self e rest) f hf)
      · have hstep : search_film_loop (e :: rest) slug = search_film_loop rest slug := by
          simp [search_film_loop, hf, hs]
        refine ⟨⟨r, by rw [hstep]; exact hr⟩, ?_⟩
        rw [hstep, hiff]
        constructor
        · intro hall x hx fx hfx
          rcases List.mem_cons.mp hx with rfl | hx
          · rw [hf] at hfx
            cases FilmOrStr.film.inj hfx
            exact hs
          · exact hall x hx fx hfx
        · intro hall x hx fx hfx
          exact hall x (List.mem_cons_of_mem e hx) fx hfx

/-- C6 amended: on a list-stored UserList, get_film is total and returns a Film exactly
when a bare slug string equal to the identifier is present (None otherwise, never raising,
whatever is already resolved); search_film returns a matching entry while it scans resolved
films, and returns the head entry when it is an unresolved match, but it raises
AttributeError upon reaching an unresolved entry whose string differs from the identifier,
so it is exception-free only when every scanned entry is resolved. -/
theorem find_partial_totality :
    (∀ (world : String → FilmSoup) (ul : UserList) (slug : String) (s : Sess)
        (films : List FilmOrStr), ul.films = FilmsField.list films →
      ((UserList.get_film world ul slug s).1.1 ≠ none ↔ FilmOrStr.str slug ∈ films)) ∧
    (∀ (el : EntryList) (slug : String),
      (∀ e ∈ el.entries, ∃ f, e.film = FilmOrStr.film f) →
      (∃ r, EntryList.search_film el slug = Except.ok r) ∧
      (EntryList.search_film el slug = Except.ok none ↔
        ∀ e ∈ el.entries, ∀ f : Film, e.film = FilmOrStr.film f → f.slug ≠ slug)) ∧
    (∀ (el : EntryList) (slug : String) (e : Entry) (rest : List Entry),
      el.entries = e :: rest → e.film = FilmOrStr.str slug →
      EntryList.search_film el slug = Except.ok (some e)) := by
  refine ⟨?_, ?_, ?_⟩
  · intro world ul slug s films hl
    cases hidx : list_index_of_slug films slug with
    | none =>
        have hno := list_index_of_slug_eq_none.mp hidx
        simp [UserList.get_film, hl, hidx, hno]
    | some idx =>
        have hmem : FilmOrStr.str slug ∈ films := by
          by_contra hmem
          rw [← list_index_of_slug_eq_none, hidx] at hmem
          cases hmem
        simp [UserList.get_film, hl, hidx, hmem]
  · intro el slug h
    exact search_loop_all_resolved h
  · intro el slug e rest hent hfilm
    unfold EntryList.search_film
    rw [hent]
    simp [search_film_loop, hfilm]

theorem find_partial_totality_witness :
    (UserList.get_film (fun _ => { slug := "a", title := "T", year := 2000 })
      { username := "u", title := "t", number_of_films := 1,
        films := FilmsField.list [FilmOrStr.str "a"] } "a" { fetched := [] }).1.1 ≠ none := by
  have h := (find_partial_totality).1 (fun _ => { slug := "a", title := "T", year := 2000 })
      { username := "u", title := "t", number_of_films := 1,
        films := FilmsField.list [FilmOrStr.str "a"] } "a" { fetched := [] }
      [FilmOrStr.str "a"] rfl
  exact h.mpr (by decide)

/-- C3 counterexample: two distinct Entry objects referencing the same film slug each
trigger their own network round trip when resolved in the same session: after resolving
both, the session log holds the slug twice, refuting the at-most-one-fetch-per-Identifier
guarantee — there is no session-wide Identifier cache. -/
theorem resolve_twice_fetches_twice :
    ((Entry.get_film_details (fun _ => { slug := "x", title := "T", year := 2000 })
        { film := FilmOrStr.str "x" }
        (Entry.get_film_details (fun _ => { slug := "x", title := "T", year := 2000 })
          { film := FilmOrStr.str "x" } { fetched := [] }).2).2).fetched = ["x", "x"] := rfl

/-- C3 amended: resolution is deterministic — two Entry objects unresolved at the same slug
hydrate the same Film value, whatever the session state — and neither re-resolving the
already-resolved Entry returned by a resolution nor re-reading a Film instance's cached
page performs further I/O; but each distinct unresolved Entry performs its own round trip
(the session log grows by the slug on every such resolution), since caching is
per-instance, not per-Identifier. -/
theorem resolution_deterministic_per_instance (world : String → FilmSoup) (slug : String)
    (e1 e2 : Entry) (s1 s2 : Sess)
    (h1 : e1.film = FilmOrStr.str slug) (h2 : e2.film = FilmOrStr.str slug) :
    (Entry.get_film_details world e1 s1).1.1 = (Entry.get_film_details world e2 s2).1.1 ∧
    (Entry.get_film_details world e1 s1).2.fetched = s1.fetched ++ [slug] ∧
    (Entry.get_film_details world e2 s2).2.fetched = s2.fetched ++ [slug] ∧
    (∀ s3 : Sess, Entry.get_film_details world (Entry.get_film_details world e1 s1).1.2 s3
        = (((Entry.get_film_details world e1 s1).1.1,
            (Entry.get_film_details world e1 s1).1.2), s3)) ∧
    (∀ (f : Film) (s3 : Sess),
      Film._get_soup world (Film._get_soup world f s3).1.2 (Film._get_soup world f s3).2
        = (((Film._get_soup world f s3).1.1, (Film._get_soup world f s3).1.2),
           (Film._get_soup world f s3).2)) := by
  refine ⟨?_, ?_, ?_, ?_, ?_⟩
  · simp [Entry.get_film_details, h1, h2, fetch_film]
  · simp [Entry.get_film_details, h1, fetch_film]
  · simp [Entry.get_film_details, h2, fetch_film]
  · intro s3
    simp [Entry.get_film_details, h1, fetch_film]
  · intro f s3
    cases hf : f._soup with
    | none => simp [Film._get_soup, hf, fetch_film]
    | some c => simp [Film._get_soup, hf]

theorem resolution_deterministic_per_instance_witness :
    ({ film := FilmOrStr.str "x" } : Entry).film = FilmOrStr.str "x" ∧
    (Entry.get_film_details (fun _ => { slug := "x", title := "T", year := 2000 })
      { film := FilmOrStr.str "x" } { fetched := [] }).2.fetched
      = ({ fetched := [] } : Sess).fetched ++ ["x"] := by
  refine ⟨rfl, ?_⟩
  exact (resolution_deterministic_per_instance
    (fun _ => { slug := "x", title := "T", year := 2000 }) "x"
    { film := FilmOrStr.str "x" } { film := FilmOrStr.str "x" }
    { fetched := [] } { fetched := [] } rfl rfl).2.1

theorem list_index_of_slug_spec {films : List FilmOrStr} {slug : String} {idx : ℕ}
    (h : list_index_of_slug films slug = some idx) :
    films[idx]? = some (FilmOrStr.str slug) := by
  induction films generalizing idx with
  | nil => cases h
  | cons x xs ih =>
      cases x with
      | str s =>
          by_cases hs : s = slug
          · subst hs
            simp [list_index_of_slug] at h
            subst h
            simp
          · simp only [list_index_of_slug, if_neg hs] at h
            cases hrec : list_index_of_slug xs slug with
            | none => rw [hrec] at h; simp at h
            | some i0 =>
                rw [hrec] at h
                simp only [Option.map_some', Option.some.injEq] at h
                subst h
                simpa using ih hrec
      | film g =>
          simp only [list_index_of_slug] at h
          cases hrec : list_index_of_slug xs slug with
          | none => rw [hrec] at h; simp at h
          | some i0 =>
              rw [hrec] at h
              simp only [Option.map_some', Option.some.injEq] at h
              subst h
              simpa using ih hrec

theorem resolve_list_index_keeps_film (world : String → FilmSoup) (films : List FilmOrStr)
    (i : ℕ) (s : Sess) {j : ℕ} {f : Film} (hj : films[j]? = some (FilmOrStr.film f)) :
    ((resolve_list_index world films i s).1)[j]? = some (FilmOrStr.film f) := by
  cases hi : films[i]? with
  | none => simpa [resolve_list_index, hi] using hj
  | some x =>
      cases x with
      | film g => simpa [resolve_list_index, hi] using hj
      | str slug =>
          by_cases hij : i = j
          · subst hij
            rw [hi] at hj
            simp at hj
          · simp [resolve_list_index, hi, List.getElem?_set_ne hij, hj]

theorem foldl_resolve_list_keeps_film (world : String → FilmSoup) (idxs : List ℕ)
    (films : List FilmOrStr) (s : Sess) {j : ℕ} {f : Film}
    (hj : films[j]? = some (FilmOrStr.film f)) :
    ((idxs.foldl (fun acc i => resolve_list_index world acc.1 i acc.2) (films, s)).1)[j]?
      = some (FilmOrStr.film f) := by
  induction idxs generalizing films s with
  | nil => exact hj
  | cons i rest ih =>
      simp only [List.foldl_cons]
      exact ih _ _ (resolve_list_index_keeps_film world films i s hj)

theorem resolve_list_index_all_film (world : String → FilmSoup) (films : List FilmOrStr)
    (i : ℕ) (s : Sess) (hall : ∀ x ∈ films, ∃ f, x = FilmOrStr.film f) :
    resolve_list_index world films i s = (films, s) := by
  cases hi : films[i]? with
  | none => simp [resolve_list_index, hi]
  | some x =>
      obtain ⟨f, rfl⟩ := hall x (List.getElem?_mem hi)
      simp [resolve_list_index, hi]

theorem foldl_resolve_list_all_film (world : String → FilmSoup) (idxs : List ℕ)
    (films : List FilmOrStr) (s : Sess)
    (hall : ∀ x ∈ films, ∃ f, x = FilmOrStr.film f) :
    idxs.foldl (fun acc i => resolve_list_index world acc.1 i acc.2) (films, s)
      = (films, s) := by
  induction idxs with
  | nil => rfl
  | cons i rest ih =>
      simp only [List.foldl_cons]
      rw [resolve_list_index_all_film world films i s hall]
      exact ih

theorem dict_set_keeps_film {pairs : List (ℕ × FilmOrStr)} {k0 : ℕ} {f : Film}
    (hmem : (k0, FilmOrStr.film f) ∈ pairs) (k : ℕ) (g : Film) :
    ∃ f', (k0, FilmOrStr.film f') ∈ dict_set pairs k (FilmOrStr.film g) := by
  unfold dict_set
  by_cases hk : k0 = k
  · exact ⟨g, List.mem_map.2 ⟨(k0, FilmOrStr.film f), hmem, by simp [hk]⟩⟩
  · exact ⟨f, List.mem_map.2 ⟨(k0, FilmOrStr.film f), hmem, by simp [hk]⟩⟩

theorem resolve_dict_key_keeps_film {world : String → FilmSoup}
    {pairs : List (ℕ × FilmOrStr)} {i : ℕ} {s : Sess} {k0 : ℕ} {f : Film}
    (hmem : (k0, FilmOrStr.film f) ∈ pairs) {out : List (ℕ × FilmOrStr) × Sess}
    (hout : resolve_dict_key world pairs i s = Except.ok out) :
    ∃ f', (k0, FilmOrStr.film f') ∈ out.1 := by
  unfold resolve_dict_key at hout
  cases hg : dict_get pairs i with
  | none => rw [hg] at hout; simp at hout
  | some x =>
      cases x with
      | film g =>
          rw [hg] at hout
          simp only [Except.ok.injEq] at hout
          subst hout
          exact ⟨f, hmem⟩
      | str slug =>
          rw [hg] at hout
          simp only [Except.ok.injEq] at hout
          subst hout
          exact dict_set_keeps_film hmem i _

theorem foldl_dict_step_keeps_film {world : String → FilmSoup} (ks : List ℕ)
    {pairs : List (ℕ × FilmOrStr)} {s : Sess} {k0 : ℕ} {f : Film}
    (hmem : (k0, FilmOrStr.film f) ∈ pairs) {out : List (ℕ × FilmOrStr) × Sess}
    (hout : ks.foldl (dict_films_step world) (Except.ok (pairs, s)) = Except.ok out) :
    ∃ f', (k0, FilmOrStr.film f') ∈ out.1 := by
  induction ks generalizing pairs s f with
  | nil =>
      simp only [List.foldl_nil, Except.ok.injEq] at hout
      subst hout
      exact ⟨f, hmem⟩
  | cons i rest ih =>
      simp only [List.foldl_cons] at hout
      rw [show dict_films_step world (Except.ok (pairs, s)) i
          = resolve_dict_key world pairs i s from rfl] at hout
      cases hstep : resolve_dict_key world pairs i s with
      | error e =>
          rw [hstep] at hout
          have herr : ∀ l : List ℕ,
              l.foldl (dict_films_step world) (Except.error e) = Except.error e := by
            intro l
            induction l with
            | nil => rfl
            | cons a as iha => simpa [dict_films_step] using iha
          rw [herr rest] at hout
          cases hout
      | ok st =>
          rw [hstep] at hout
          obtain ⟨f1, hf1⟩ := resolve_dict_key_keeps_film hmem hstep
          exact ih hf1 hout

theorem userlist_with_films_self (ul : UserList) {ff : FilmsField} (h : ul.films = ff) :
    ({ ul with films := ff } : UserList) = ul := by
  cases ul
  cases h
  rfl

/-- C7: resolution is monotonic across the embedded operations: resolving an
already-resolved Entry returns its Film value with no I/O and no state change; after
get_film_details an Entry is always resolved; UserList.get_film never reverts a resolved
reference, in a list or in a rank dict; UserList.get_films likewise preserves resolved
references, and when every reference is already resolved it returns everything unchanged
with no fetch at all. -/
theorem resolution_monotonic :
    (∀ (world : String → FilmSoup) (e : Entry) (f : Film) (s : Sess),
      e.film = FilmOrStr.film f → Entry.get_film_details world e s = ((f, e), s)) ∧
    (∀ (world : String → FilmSoup) (e : Entry) (s : Sess),
      ∃ g, ((Entry.get_film_details world e s).1.2).film = FilmOrStr.film g) ∧
    (∀ (world : String → FilmSoup) (ul : UserList) (slug : String) (s : Sess)
        (films : List FilmOrStr) (j : ℕ) (f : Film),
      ul.films = FilmsField.list films → films[j]? = some (FilmOrStr.film f) →
      ∃ films', ((UserList.get_film world ul slug s).1.2).films = FilmsField.list films' ∧
        films'[j]? = some (FilmOrStr.film f)) ∧
    (∀ (world : String → FilmSoup) (ul : UserList) (slug : String) (s : Sess)
        (pairs : List (ℕ × FilmOrStr)) (k0 : ℕ) (f : Film),
      ul.films = FilmsField.dict pairs → (k0, FilmOrStr.film f) ∈ pairs →
      ∃ pairs' f', ((UserList.get_film world ul slug s).1.2).films = FilmsField.dict pairs' ∧
        (k0, FilmOrStr.film f') ∈ pairs') ∧
    (∀ (world : String → FilmSoup) (ul : UserList) (limit : Option ℕ) (s : Sess)
        (films : List FilmOrStr) (j : ℕ) (f : Film),
      ul.films = FilmsField.list films → films[j]? = some (FilmOrStr.film f) →
      ∃ films' s', UserList.get_films world ul limit s
          = Except.ok ((FilmsField.list films', { ul with films := FilmsField.list films' }), s')
        ∧ films'[j]? = some (FilmOrStr.film f)) ∧
    (∀ (world : String → FilmSoup) (ul : UserList) (limit : Option ℕ) (s : Sess)
        (pairs : List (ℕ × FilmOrStr)) (k0 : ℕ) (f : Film)
        (out : (FilmsField × UserList) × Sess),
      ul.films = FilmsField.dict pairs → (k0, FilmOrStr.film f) ∈ pairs →
      UserList.get_films world ul limit s = Except.ok out →
      ∃ pairs' f', out.1.1 = FilmsField.dict pairs' ∧ (k0, FilmOrStr.film f') ∈ pairs') ∧
    (∀ (world : String → FilmSoup) (ul : UserList) (limit : Option ℕ) (s : Sess)
        (films : List FilmOrStr),
      ul.films = FilmsField.list films → (∀ x ∈ films, ∃ f, x = FilmOrStr.film f) →
      UserList.get_films world ul limit s
        = Except.ok ((FilmsField.list films, ul), s)) := by
  refine ⟨?_, ?_, ?_, ?_, ?_, ?_, ?_⟩
  · intro world e f s he
    simp [Entry.get_film_details, he]
  · intro world e s
    cases he : e.film with
    | film g => exact ⟨g, by simp [Entry.get_film_details, he]⟩
    | str slug => exact ⟨parse_film (fetch_film world slug s).1,
        by simp [Entry.get_film_details, he]⟩
  · intro world ul slug s films j f hl hj
    cases hidx : list_index_of_slug films slug with
    | none =>
        refine ⟨films, ?_, hj⟩
        simp [UserList.get_film, hl, hidx]
    | some idx =>
        refine ⟨films.set idx (FilmOrStr.film (parse_film (fetch_film world slug s).1)),
          ?_, ?_⟩
        · simp [UserList.get_film, hl, hidx]
        · have hstr := list_index_of_slug_spec hidx
          by_cases hij : idx = j
          · subst hij
            rw [hstr] at hj
            simp at hj
          · simp [List.getElem?_set_ne hij, hj]
  · intro world ul slug s pairs k0 f hd hmem
    cases hidx : dict_first_key_of_slug pairs slug with
    | none => exact ⟨pairs, f, by simp [UserList.get_film, hd, hidx], hmem⟩
    | some k =>
        obtain ⟨f', hf'⟩ := dict_set_keeps_film hmem k (parse_film (fetch_film world slug s).1)
        exact ⟨dict_set pairs k (FilmOrStr.film (parse_film (fetch_film world slug s).1)), f',
          by simp [UserList.get_film, hd, hidx], hf'⟩
  · intro world ul limit s films j f hl hj
    refine ⟨((List.range (min (limit.getD films.length) films.length)).foldl
        (fun acc i => resolve_list_index world acc.1 i acc.2) (films, s)).1,
      ((List.range (min (limit.getD films.length) films.length)).foldl
        (fun acc i => resolve_list_index world acc.1 i acc.2) (films, s)).2,
      ?_, foldl_resolve_list_keeps_film world _ films s hj⟩
    simp [UserList.get_films, hl]
  · intro world ul limit s pairs k0 f out hd hmem hout
    simp only [UserList.get_films, hd] at hout
    cases hfold : (List.range' 1 (min (limit.getD pairs.length) pairs.length)).foldl
        (dict_films_step world) (Except.ok (pairs, s)) with
    | error e =>
        rw [hfold] at hout
        simp at hout
    | ok st =>
        rw [hfold] at hout
        simp only [Except.ok.injEq] at hout
        obtain ⟨f', hf'⟩ := foldl_dict_step_keeps_film _ hmem hfold
        refine ⟨st.1, f', ?_, hf'⟩
        rw [← hout]
  · intro world ul limit s films hl hall
    have heq : ({ ul with films := FilmsField.list films } : UserList) = ul :=
      userlist_with_films_self ul hl
    simp only [UserList.get_films, hl]
    rw [foldl_resolve_list_all_film world _ films s hall]
    simp [heq]

theorem resolution_monotonic_witness :
    ({ film := FilmOrStr.film { slug := "x" } } : Entry).film = FilmOrStr.film { slug := "x" } ∧
    Entry.get_film_details (fun _ => { slug := "y", title := "T", year := 2000 })
      { film := FilmOrStr.film { slug := "x" } } { fetched := [] }
      = (({ slug := "x" }, { film := FilmOrStr.film { slug := "x" } }), { fetched := [] }) := by
  refine ⟨rfl, ?_⟩
  exact (resolution_monotonic).1 (fun _ => { slug := "y", title := "T", year := 2000 })
    { film := FilmOrStr.film { slug := "x" } } { slug := "x" } { fetched := [] } rfl
